import Mathlib

/-!
Shallow embedding of the installation-step orchestration pipeline of the
claude-codepro repository.

The core under verification is `src/installer/cli.py`: the functions
`get_all_steps`, `rollback_completed_steps`, `run_installation` and the
`install` command, together with the error taxonomy of
`src/installer/errors.py` and the concrete steps' `check` methods under
`src/installer/steps/`.

The repository's `installer/context.py`, `installer/ui.py`,
`installer/steps/base.py` and `installer/steps/git_setup.py` are imported by
`cli.py` but are not present in the source tree; the definitions that stand
in for them are modelled from the spec (and from the unit tests in
`src/tests/unit/installer/test_context.py`) and are marked as such in their
doc comments.

Python side effects are made explicit: a step method receives the context
and returns the (possibly mutated) context together with an optional raised
exception; the orchestrator additionally produces a trace of observable
events (method invocations and UI messages), which is how the ordering
claims are stated.
-/

/-- Python exception values reachable in the installer, from
`src/installer/errors.py` (`InstallError`, `FatalInstallError`,
`PreflightError`, `DownloadError`, `ConfigError`) plus the builtins that the
orchestrator code distinguishes: `KeyboardInterrupt` (a `BaseException` that
is not an `Exception`) and any other `Exception` instance. -/
inductive PyExc where
  | installError (msg : String)
  | fatalInstallError (msg : String)
  | preflightError (msg : String) (checkName : Option String)
  | downloadError (msg : String) (url : Option String)
  | configError (msg : String)
  | keyboardInterrupt
  | otherException (msg : String)
deriving DecidableEq, Repr

/-- Whether the exception is an instance of `FatalInstallError`, i.e. what an
`except FatalInstallError` handler catches. Per `errors.py`,
`PreflightError` extends `FatalInstallError`. -/
def isFatalInstallError : PyExc → Bool
  | .fatalInstallError _ => true
  | .preflightError _ _ => true
  | _ => false

/-- Whether the exception is an instance of Python's `Exception` class, i.e.
what an `except Exception` handler catches. `KeyboardInterrupt` derives only
from `BaseException`, so it is not caught by `except Exception`. -/
def isExceptionInstance : PyExc → Bool
  | .keyboardInterrupt => false
  | _ => true

/-- The `str(e)` rendering of an exception, used in UI messages. -/
def pyStr : PyExc → String
  | .installError m => m
  | .fatalInstallError m => m
  | .preflightError m _ => m
  | .downloadError m _ => m
  | .configError m => m
  | .keyboardInterrupt => ""
  | .otherException m => m

/-- Modelled from the spec: `installer/context.py` is not under `src/`.
The field list and defaults follow spec section 3 and the unit tests in
`src/tests/unit/installer/test_context.py` (`project_dir` required;
`install_python` defaults to true; `premium_key`, `local_repo_dir` default to
`None`; `non_interactive`, `local_mode` default to false; `completed_steps`
and `config` start empty). The UI handle is modelled by its presence bit
(`ui = false` is Python `ui = None`), and the free-form config bag as an
association list. -/
structure InstallContext where
  project_dir : String
  install_python : Bool := true
  premium_key : Option String := none
  non_interactive : Bool := false
  local_mode : Bool := false
  local_repo_dir : Option String := none
  ui : Bool := false
  completed_steps : List String := []
  config : List (String × String) := []
deriving DecidableEq, Repr

/-- Modelled from the spec: `installer/context.py` is not under `src/`.
`mark_completed(name)` appends `name` to the completed list if not already
present (spec section 4.2; test `test_mark_completed_is_idempotent`). -/
def InstallContext.mark_completed (ctx : InstallContext) (name : String) : InstallContext :=
  if name ∈ ctx.completed_steps then ctx
  else { ctx with completed_steps := ctx.completed_steps ++ [name] }

/-- Modelled from the spec: `installer/context.py` is not under `src/`.
`is_completed(name)` is a membership test (spec section 4.2). -/
def InstallContext.is_completed (ctx : InstallContext) (name : String) : Bool :=
  name ∈ ctx.completed_steps

/-- Modelled from the spec: `installer/context.py` is not under `src/`.
`needs_rollback()` is true iff at least one step has been marked completed
(spec section 4.2; test `test_needs_rollback_when_steps_completed`). -/
def InstallContext.needs_rollback (ctx : InstallContext) : Bool :=
  !ctx.completed_steps.isEmpty

/-- Observable events of one orchestrator invocation: step-method calls, the
orchestrator's own `ctx.mark_completed` call, and UI messages. -/
inductive Event where
  | checkCall (name : String)
  | runCall (name : String)
  | markCompleted (name : String)
  | rollbackCall (name : String)
  | uiBanner
  | uiTotalSteps (n : Nat)
  | uiStep (msg : String)
  | uiInfo (msg : String)
  | uiStatus (msg : String)
  | uiWarning (msg : String)
  | uiError (msg : String)
deriving DecidableEq, Repr

/-- A step as the orchestrator sees it (`installer/steps/base.py` is not
under `src/`; the interface is spec section 4.1): a name plus the behaviors
of `check`, `run` and `rollback`. `run` and `rollback` receive the context
and return the possibly-mutated context together with an optionally raised
exception (mutations made before a raise persist, as in Python). Concrete
step bodies are out of the core per spec section 1, so claims quantify over
arbitrary behaviors. -/
structure StepBehavior where
  name : String
  check : InstallContext → Bool
  run : InstallContext → InstallContext × Option PyExc
  rollback : InstallContext → InstallContext × Option PyExc

/-- Result of an orchestrator function: final context, event trace, and the
exception propagating out, if any. -/
structure RunRes where
  ctx : InstallContext
  trace : List Event
  exc : Option PyExc
deriving DecidableEq, Repr

/-- Python `str.title()` restricted to cased-vs-uncased ASCII behavior: a
letter is uppercased when the previous character is not a letter, lowercased
otherwise. -/
def pyTitleAux : Bool → List Char → List Char
  | _, [] => []
  | prevCased, c :: cs =>
    if c.isAlpha then
      (if prevCased then c.toLower else c.toUpper) :: pyTitleAux true cs
    else
      c :: pyTitleAux false cs

/-- Python `str.title()`. -/
def pyTitle (s : String) : String := ⟨pyTitleAux false s.data⟩

/-- The step header shown by `run_installation`:
`step.name.replace("_", " ").title()` (cli.py line 86). -/
def stepTitle (name : String) : String := pyTitle (name.replace "_" " ")

/-- Loop of `rollback_completed_steps` (cli.py lines 62 to 71), over the
already-reversed step list: steps whose name is not in the completed
snapshot are skipped; for the others `rollback(ctx)` is called inside
`try ... except Exception`, so an `Exception`-instance raise is reported and
swallowed while a `BaseException`-only raise (e.g. `KeyboardInterrupt`)
aborts the loop and propagates. -/
def rollbackLoop (ui : Bool) (completed : List String) :
    List StepBehavior → InstallContext → RunRes
  | [], ctx => ⟨ctx, [], none⟩
  | step :: rest, ctx =>
    if step.name ∈ completed then
      let seg0 : List Event :=
        if ui then [.uiStatus ("Rolling back " ++ step.name ++ "...")] else []
      let res := step.rollback ctx
      match res.2 with
      | none =>
        let r := rollbackLoop ui completed rest res.1
        ⟨r.ctx, seg0 ++ [.rollbackCall step.name] ++ r.trace, r.exc⟩
      | some e =>
        if isExceptionInstance e then
          let seg1 : List Event :=
            if ui then [.uiError ("Rollback failed for " ++ step.name ++ ": " ++ pyStr e)] else []
          let r := rollbackLoop ui completed rest res.1
          ⟨r.ctx, seg0 ++ [.rollbackCall step.name] ++ seg1 ++ r.trace, r.exc⟩
        else
          ⟨res.1, seg0 ++ [.rollbackCall step.name], some e⟩
    else
      rollbackLoop ui completed rest ctx

/-- `rollback_completed_steps(ctx, steps)` (cli.py lines 53 to 71): warn via
the UI when present, snapshot `ctx.completed_steps`, and roll back the full
step list in reverse order. -/
def rollback_completed_steps (ctx : InstallContext) (steps : List StepBehavior) : RunRes :=
  let seg0 : List Event := if ctx.ui then [.uiWarning "Rolling back installation..."] else []
  let r := rollbackLoop ctx.ui ctx.completed_steps steps.reverse ctx
  ⟨r.ctx, seg0 ++ r.trace, r.exc⟩

/-- Loop of `run_installation` (cli.py lines 83 to 99). For each step: show
the step header, call `check(ctx)`; on true report and skip; otherwise call
`run(ctx)` inside `try ... except FatalInstallError`; on normal return call
`ctx.mark_completed(step.name)` and continue; on a `FatalInstallError` raise
call `rollback_completed_steps(ctx, steps)` with the full list and re-raise
(unless the rollback pass itself raises, in which case that exception
propagates instead, as in Python); any other raise propagates directly. -/
def runLoop (ui : Bool) (allSteps : List StepBehavior) :
    List StepBehavior → InstallContext → RunRes
  | [], ctx => ⟨ctx, [], none⟩
  | step :: rest, ctx =>
    let hdr : List Event :=
      (if ui then [.uiStep (stepTitle step.name)] else []) ++ [.checkCall step.name]
    if step.check ctx then
      let seg := hdr ++ (if ui then [.uiInfo "Already complete, skipping"] else [])
      let r := runLoop ui allSteps rest ctx
      ⟨r.ctx, seg ++ r.trace, r.exc⟩
    else
      let res := step.run ctx
      match res.2 with
      | none =>
        let ctx2 := res.1.mark_completed step.name
        let r := runLoop ui allSteps rest ctx2
        ⟨r.ctx, hdr ++ [.runCall step.name, .markCompleted step.name] ++ r.trace, r.exc⟩
      | some e =>
        if isFatalInstallError e then
          let rb := rollback_completed_steps res.1 allSteps
          match rb.exc with
          | none => ⟨rb.ctx, hdr ++ [.runCall step.name] ++ rb.trace, some e⟩
          | some e2 => ⟨rb.ctx, hdr ++ [.runCall step.name] ++ rb.trace, some e2⟩
        else
          ⟨res.1, hdr ++ [.runCall step.name], some e⟩

/-- `run_installation(ctx)` (cli.py lines 74 to 99). The source obtains the
step list from `get_all_steps()`; since concrete step bodies are external
collaborators (spec section 1), the list is a parameter here and the rest of
the body is translated verbatim. -/
def run_installation (steps : List StepBehavior) (ctx : InstallContext) : RunRes :=
  let seg0 : List Event := if ctx.ui then [.uiTotalSteps steps.length] else []
  let r := runLoop ctx.ui steps steps ctx
  ⟨r.ctx, seg0 ++ r.trace, r.exc⟩

/-- Outcome of the `install` CLI command: normal return, `typer.Exit(code)`,
or an exception it does not catch. -/
inductive InstallOutcome where
  | success
  | exitCode (code : Nat)
  | uncaught (e : PyExc)
deriving DecidableEq, Repr

/-- The context built by the `install` command (cli.py lines 118 to 126):
current directory as project dir, the negated and combined option flags, and
the `Console` UI always present. -/
def installContext (cwd : String) (non_interactive skip_env localFiles : Bool)
    (local_repo_dir : Option String) (skip_python : Bool) : InstallContext :=
  { project_dir := cwd
    install_python := !skip_python
    non_interactive := non_interactive || skip_env
    local_mode := localFiles
    local_repo_dir := local_repo_dir
    ui := true }

/-- The `install` command (cli.py lines 102 to 135): builds a `Console` UI
and the context from its options, runs `run_installation`, and catches
`FatalInstallError` (exit code 1) and `KeyboardInterrupt` (exit code 130);
any other exception propagates. -/
def install (steps : List StepBehavior) (build : String) (cwd : String)
    (non_interactive skip_env localFiles : Bool) (local_repo_dir : Option String)
    (skip_python : Bool) : InstallOutcome × List Event :=
  let ctx : InstallContext :=
    installContext cwd non_interactive skip_env localFiles local_repo_dir skip_python
  let seg0 : List Event := [.uiBanner, .uiInfo ("Build: " ++ build)]
  let r := run_installation steps ctx
  match r.exc with
  | none => (.success, seg0 ++ r.trace)
  | some e =>
    if isFatalInstallError e then
      (.exitCode 1, seg0 ++ r.trace ++ [.uiError ("Installation failed: " ++ pyStr e)])
    else if e = .keyboardInterrupt then
      (.exitCode 130, seg0 ++ r.trace ++ [.uiWarning "Installation cancelled"])
    else
      (.uncaught e, seg0 ++ r.trace)

/-! ### Concrete steps: the filesystem oracle and each `check` method

The claims about `get_all_steps()` and the concrete `check` methods need the
step classes themselves. Filesystem and environment reads are factored into
an explicit `World` record of oracles, so that each `check` body can be
translated branch by branch from its source file. -/

/-- One entry returned when listing a directory, as `migration.py` inspects
it: its name, whether it is a directory, and whether `item.glob("*.md")` is
non-empty. -/
structure DirEntry where
  name : String
  isDir : Bool
  hasMd : Bool
deriving DecidableEq, Repr

/-- Read-only filesystem/environment oracles consulted by the concrete
`check` methods. `gitSetupSatisfied` is modelled from the spec:
`installer/steps/git_setup.py` is not under `src/`; spec section 4.1 only
requires `check` to be a read-only predicate of the environment. -/
structure World where
  pathExists : String → Bool
  pathIsDir : String → Bool
  fileText : String → String
  listDir : String → List DirEntry
  home : String
  installerVersion : Option String
  ccpReportedVersion : String → Option String
  gitSetupSatisfied : Bool

/-- Python truthiness test `not x` for an optional string: falsy when `None`
or the empty string. -/
def pyFalsy : Option String → Bool
  | none => true
  | some s => s = ""

/-- Python `a or b` on optional strings: `b` when `a` is falsy. -/
def strOr (a b : Option String) : Option String :=
  if pyFalsy a then b else a

/-- Whether the character pattern occurs at the head of the list. -/
def listHasHere : List Char → List Char → Bool
  | _, [] => true
  | [], _ :: _ => false
  | c :: cs, p :: ps => c = p && listHasHere cs ps

/-- Whether the character pattern occurs anywhere in the list. -/
def listContainsSub : List Char → List Char → Bool
  | [], pat => pat.isEmpty
  | c :: cs, pat => listHasHere (c :: cs) pat || listContainsSub cs pat

/-- Python `pat in s` substring test. -/
def strContainsSub (s pat : String) : Bool := listContainsSub s.data pat.data

/-- `CCP_ALIAS_MARKER` from `src/installer/steps/shell_config.py`. -/
def CCP_ALIAS_MARKER : String := "# Claude CodePro alias"

/-- `is_in_devcontainer()` from `src/installer/steps/devcontainer.py`. -/
def is_in_devcontainer (w : World) : Bool :=
  w.pathExists "/.dockerenv" || w.pathExists "/run/.containerenv"

/-- `has_devcontainer(project_dir)` from `src/installer/steps/devcontainer.py`. -/
def has_devcontainer (w : World) (project_dir : String) : Bool :=
  w.pathIsDir (project_dir ++ "/.devcontainer")

/-- `needs_migration(project_dir)` from `src/installer/steps/migration.py`. -/
def needs_migration (w : World) (project_dir : String) : Bool :=
  let claude_dir := project_dir ++ "/.claude"
  if !w.pathExists claude_dir then false
  else
    let standard_dir := claude_dir ++ "/rules/standard"
    if !w.pathExists standard_dir then false
    else
      (w.listDir standard_dir).any fun item =>
        item.isDir && !item.name.startsWith "." && item.hasMd

/-- `get_shell_config_files()` from `src/installer/platform_utils.py`. -/
def get_shell_config_files (w : World) : List String :=
  let bashrc := w.home ++ "/.bashrc"
  let bash_profile := w.home ++ "/.bash_profile"
  let zshrc := w.home ++ "/.zshrc"
  let fish_config := w.home ++ "/.config/fish/config.fish"
  let configs :=
    (if w.pathExists bashrc then [bashrc] else []) ++
    (if w.pathExists bash_profile then [bash_profile] else []) ++
    (if w.pathExists zshrc then [zshrc] else []) ++
    (if w.pathExists fish_config then [fish_config] else [])
  if configs.isEmpty then [bashrc, zshrc, fish_config] else configs

/-- `alias_exists_in_file(config_file)` from `src/installer/steps/shell_config.py`. -/
def alias_exists_in_file (w : World) (config_file : String) : Bool :=
  if !w.pathExists config_file then false
  else
    let content := w.fileText config_file
    strContainsSub content "alias ccp" || strContainsSub content CCP_ALIAS_MARKER

/-- A concrete step class as the claims about `get_all_steps()` need it: its
`name` class attribute and its `check` method. `check` receives the context
and the world and returns its boolean together with the context it leaves
behind; each translated body returns the context it was given because the
source bodies contain no write to `ctx`. -/
structure StepDecl where
  name : String
  check : InstallContext → World → Bool × InstallContext

/-- `PreflightStep` (`src/installer/steps/preflight.py`): `check` always
returns false. -/
def PreflightStep : StepDecl :=
  ⟨"preflight", fun ctx _ => (false, ctx)⟩

/-- `DevcontainerStep` (`src/installer/steps/devcontainer.py`): skip when
already in a container or `.devcontainer` exists. -/
def DevcontainerStep : StepDecl :=
  ⟨"devcontainer", fun ctx w =>
    (if is_in_devcontainer w then true
     else if has_devcontainer w ctx.project_dir then true
     else false, ctx)⟩

/-- `BootstrapStep` (`src/installer/steps/bootstrap.py`): `check` always
returns false. -/
def BootstrapStep : StepDecl :=
  ⟨"bootstrap", fun ctx _ => (false, ctx)⟩

/-- `MigrationStep` (`src/installer/steps/migration.py`): true iff no
migration is needed. -/
def MigrationStep : StepDecl :=
  ⟨"migration", fun ctx w => (!needs_migration w ctx.project_dir, ctx)⟩

/-- Modelled from the spec: `installer/steps/git_setup.py` is not under
`src/`. Its name follows the module-name convention every present step obeys
(module `git_setup` to name "git_setup"), and its `check` is a read-only
predicate of the environment per spec section 4.1. -/
def GitSetupStep : StepDecl :=
  ⟨"git_setup", fun ctx w => (w.gitSetupSatisfied, ctx)⟩

/-- `ClaudeFilesStep` (`src/installer/steps/claude_files.py`): `check`
always returns false. -/
def ClaudeFilesStep : StepDecl :=
  ⟨"claude_files", fun ctx _ => (false, ctx)⟩

/-- `ConfigFilesStep` (`src/installer/steps/config_files.py`): true iff
`.claude/settings.local.json` exists. -/
def ConfigFilesStep : StepDecl :=
  ⟨"config_files", fun ctx w =>
    (w.pathExists (ctx.project_dir ++ "/.claude/settings.local.json"), ctx)⟩

/-- `DependenciesStep` (`src/installer/steps/dependencies.py`): `check`
always returns false. -/
def DependenciesStep : StepDecl :=
  ⟨"dependencies", fun ctx _ => (false, ctx)⟩

/-- `EnvironmentStep` (`src/installer/steps/environment.py`): `check` always
returns false. -/
def EnvironmentStep : StepDecl :=
  ⟨"environment", fun ctx _ => (false, ctx)⟩

/-- `PremiumStep` (`src/installer/steps/premium.py`): skip when there is no
premium key or the premium binary already exists. -/
def PremiumStep : StepDecl :=
  ⟨"premium", fun ctx w =>
    (if pyFalsy ctx.premium_key then true
     else if w.pathExists (ctx.project_dir ++ "/.claude/bin/ccp-premium") then true
     else false, ctx)⟩

/-- `ShellConfigStep` (`src/installer/steps/shell_config.py`): true iff the
alias exists in some shell config file. -/
def ShellConfigStep : StepDecl :=
  ⟨"shell_config", fun ctx w =>
    ((get_shell_config_files w).any (alias_exists_in_file w), ctx)⟩

/-- `FinalizeStep` (`src/installer/steps/finalize.py`): `check` always
returns false. -/
def FinalizeStep : StepDecl :=
  ⟨"finalize", fun ctx _ => (false, ctx)⟩

/-- `get_all_steps()` from `src/installer/cli.py` lines 35 to 50: the fixed
ordered list of step instances. -/
def get_all_steps : List StepDecl :=
  [PreflightStep,
   DevcontainerStep,
   BootstrapStep,
   MigrationStep,
   GitSetupStep,
   ClaudeFilesStep,
   ConfigFilesStep,
   DependenciesStep,
   EnvironmentStep,
   PremiumStep,
   ShellConfigStep,
   FinalizeStep]

/-- The per-instance cache of `CcpBinaryStep`
(`src/installer/steps/ccp_binary.py` constructor). -/
structure CcpCache where
  version_checked : Bool
  cached_version : Option String
deriving DecidableEq, Repr

/-- Lookup in the config bag: `ctx.config.get(key)`. -/
def configGet (config : List (String × String)) (key : String) : Option String :=
  match config.find? (fun kv => kv.1 = key) with
  | none => none
  | some kv => some kv.2

/-- `CcpBinaryStep.check` (`src/installer/steps/ccp_binary.py` lines 161 to
184), translated branch by branch. It returns its boolean, the context it
leaves behind, and the updated per-instance cache; only the cache fields
`_version_checked` and `_cached_version` are ever assigned. This step class
exists in the tree but is not part of `get_all_steps()`. -/
def CcpBinaryStep.check (cache : CcpCache) (ctx : InstallContext) (w : World) :
    Bool × InstallContext × CcpCache :=
  let ccp_path := ctx.project_dir ++ "/.claude/bin/ccp"
  if !w.pathExists ccp_path then
    (false, ctx, ⟨true, none⟩)
  else
    let target_version := strOr w.installerVersion (configGet ctx.config "target_version")
    if pyFalsy target_version then
      (true, ctx, cache)
    else
      let installed_version := w.ccpReportedVersion ccp_path
      let cache2 : CcpCache := ⟨true, installed_version⟩
      if pyFalsy installed_version then
        (false, ctx, cache2)
      else
        (installed_version = target_version, ctx, cache2)

/-! ### Trace observations and helper lemmas -/

/-- The names of the `rollback(ctx)` invocations recorded in a trace, in
order. -/
def rollbackCalls (t : List Event) : List String :=
  t.filterMap fun ev =>
    match ev with
    | .rollbackCall n => some n
    | _ => none

/-- Events that the rollback pass can emit. -/
def isRollbackEvent : Event → Bool
  | .rollbackCall _ => true
  | .uiStatus _ => true
  | .uiWarning _ => true
  | .uiError _ => true
  | _ => false

theorem rollbackCalls_append (t1 t2 : List Event) :
    rollbackCalls (t1 ++ t2) = rollbackCalls t1 ++ rollbackCalls t2 :=
  List.filterMap_append _ _ _

theorem mem_ite_singleton {α : Type} {b : Bool} {x ev : α} :
    ev ∈ (if b then [x] else ([] : List α)) → ev = x := by
  cases b <;> simp

theorem rollbackLoop_trace_rb (ui : Bool) (completed : List String) :
    ∀ (l : List StepBehavior) (ctx : InstallContext),
      ∀ ev ∈ (rollbackLoop ui completed l ctx).trace, isRollbackEvent ev = true := by
  intro l
  induction l with
  | nil => intro ctx ev hev; simp [rollbackLoop] at hev
  | cons step rest ih =>
    intro ctx ev hev
    simp only [rollbackLoop] at hev
    by_cases hmem : step.name ∈ completed
    · rw [if_pos hmem] at hev
      rcases hrb : (step.rollback ctx).2 with _ | e <;> rw [hrb] at hev <;>
        dsimp only at hev
      · simp only [List.append_assoc, List.mem_append, List.mem_singleton] at hev
        rcases hev with h | h | h
        · rw [mem_ite_singleton h]; rfl
        · rw [h]; rfl
        · exact ih _ ev h
      · by_cases hE : isExceptionInstance e = true
        · rw [if_pos hE] at hev
          simp only [List.append_assoc, List.mem_append, List.mem_singleton] at hev
          rcases hev with h | h | h | h
          · rw [mem_ite_singleton h]; rfl
          · rw [h]; rfl
          · rw [mem_ite_singleton h]; rfl
          · exact ih _ ev h
        · rw [if_neg hE] at hev
          simp only [List.mem_append, List.mem_singleton] at hev
          rcases hev with h | h
          · rw [mem_ite_singleton h]; rfl
          · rw [h]; rfl
    · rw [if_neg hmem] at hev
      exact ih _ ev hev

theorem rollback_trace_rb (ctx : InstallContext) (steps : List StepBehavior) :
    ∀ ev ∈ (rollback_completed_steps ctx steps).trace, isRollbackEvent ev = true := by
  intro ev hev
  simp only [rollback_completed_steps, List.mem_append] at hev
  rcases hev with h | h
  · rw [mem_ite_singleton h]; rfl
  · exact rollbackLoop_trace_rb _ _ _ _ ev h

theorem rollbackCalls_ite_status (b : Bool) (m : String) :
    rollbackCalls (if b then [Event.uiStatus m] else []) = [] := by
  cases b <;> simp [rollbackCalls]

theorem rollbackCalls_ite_error (b : Bool) (m : String) :
    rollbackCalls (if b then [Event.uiError m] else []) = [] := by
  cases b <;> simp [rollbackCalls]

theorem rollbackCalls_single (n : String) :
    rollbackCalls [Event.rollbackCall n] = [n] := by
  simp [rollbackCalls]

theorem rollbackLoop_cons_skip (ui : Bool) (completed : List String)
    (step : StepBehavior) (rest : List StepBehavior) (ctx : InstallContext)
    (hmem : step.name ∉ completed) :
    rollbackLoop ui completed (step :: rest) ctx = rollbackLoop ui completed rest ctx := by
  simp only [rollbackLoop]
  rw [if_neg hmem]

theorem rollbackLoop_cons_ok (ui : Bool) (completed : List String)
    (step : StepBehavior) (rest : List StepBehavior) (ctx : InstallContext)
    (hmem : step.name ∈ completed) (hrb : (step.rollback ctx).2 = none) :
    rollbackLoop ui completed (step :: rest) ctx =
      ⟨(rollbackLoop ui completed rest (step.rollback ctx).1).ctx,
       (if ui then [Event.uiStatus ("Rolling back " ++ step.name ++ "...")] else []) ++
         [Event.rollbackCall step.name] ++
         (rollbackLoop ui completed rest (step.rollback ctx).1).trace,
       (rollbackLoop ui completed rest (step.rollback ctx).1).exc⟩ := by
  simp only [rollbackLoop]
  rw [if_pos hmem, hrb]

theorem rollbackLoop_cons_exc (ui : Bool) (completed : List String)
    (step : StepBehavior) (rest : List StepBehavior) (ctx : InstallContext) (e : PyExc)
    (hmem : step.name ∈ completed) (hrb : (step.rollback ctx).2 = some e)
    (hE : isExceptionInstance e = true) :
    rollbackLoop ui completed (step :: rest) ctx =
      ⟨(rollbackLoop ui completed rest (step.rollback ctx).1).ctx,
       ((if ui then [Event.uiStatus ("Rolling back " ++ step.name ++ "...")] else []) ++
         [Event.rollbackCall step.name] ++
         (if ui then [Event.uiError ("Rollback failed for " ++ step.name ++ ": " ++ pyStr e)]
          else [])) ++
         (rollbackLoop ui completed rest (step.rollback ctx).1).trace,
       (rollbackLoop ui completed rest (step.rollback ctx).1).exc⟩ := by
  simp only [rollbackLoop]
  rw [if_pos hmem, hrb]
  dsimp only
  rw [if_pos hE]

theorem rollbackLoop_cons_base (ui : Bool) (completed : List String)
    (step : StepBehavior) (rest : List StepBehavior) (ctx : InstallContext) (e : PyExc)
    (hmem : step.name ∈ completed) (hrb : (step.rollback ctx).2 = some e)
    (hE : isExceptionInstance e = false) :
    rollbackLoop ui completed (step :: rest) ctx =
      ⟨(step.rollback ctx).1,
       (if ui then [Event.uiStatus ("Rolling back " ++ step.name ++ "...")] else []) ++
         [Event.rollbackCall step.name],
       some e⟩ := by
  simp only [rollbackLoop]
  rw [if_pos hmem, hrb]
  dsimp only
  rw [if_neg (by simp [hE])]

theorem rollbackLoop_append (ui : Bool) (completed : List String)
    (l1 l2 : List StepBehavior) :
    ∀ ctx : InstallContext, (rollbackLoop ui completed l1 ctx).exc = none →
      rollbackLoop ui completed (l1 ++ l2) ctx =
        ⟨(rollbackLoop ui completed l2 (rollbackLoop ui completed l1 ctx).ctx).ctx,
         (rollbackLoop ui completed l1 ctx).trace ++
           (rollbackLoop ui completed l2 (rollbackLoop ui completed l1 ctx).ctx).trace,
         (rollbackLoop ui completed l2 (rollbackLoop ui completed l1 ctx).ctx).exc⟩ := by
  induction l1 with
  | nil => intro ctx _; simp [rollbackLoop]
  | cons step rest ih =>
    intro ctx hexc
    by_cases hmem : step.name ∈ completed
    · rcases hrb : (step.rollback ctx).2 with _ | e
      · rw [rollbackLoop_cons_ok ui completed step rest ctx hmem hrb] at hexc
        dsimp only at hexc
        rw [List.cons_append, rollbackLoop_cons_ok ui completed step (rest ++ l2) ctx hmem hrb,
          rollbackLoop_cons_ok ui completed step rest ctx hmem hrb]
        dsimp only
        rw [ih _ hexc]
        simp [List.append_assoc]
      · by_cases hE : isExceptionInstance e = true
        · rw [rollbackLoop_cons_exc ui completed step rest ctx e hmem hrb hE] at hexc
          dsimp only at hexc
          rw [List.cons_append, rollbackLoop_cons_exc ui completed step (rest ++ l2) ctx e hmem hrb hE,
            rollbackLoop_cons_exc ui completed step rest ctx e hmem hrb hE]
          dsimp only
          rw [ih _ hexc]
          simp [List.append_assoc]
        · rw [rollbackLoop_cons_base ui completed step rest ctx e hmem hrb
            (Bool.not_eq_true _ ▸ hE)] at hexc
          simp at hexc
    · rw [rollbackLoop_cons_skip ui completed step rest ctx hmem] at hexc
      rw [List.cons_append, rollbackLoop_cons_skip ui completed step (rest ++ l2) ctx hmem,
        rollbackLoop_cons_skip ui completed step rest ctx hmem]
      exact ih _ hexc

theorem rollbackLoop_ok (ui : Bool) (completed : List String) :
    ∀ (l : List StepBehavior) (ctx : InstallContext),
      (∀ s ∈ l, ∀ c e, (s.rollback c).2 = some e → isExceptionInstance e = true) →
      (rollbackLoop ui completed l ctx).exc = none ∧
        rollbackCalls (rollbackLoop ui completed l ctx).trace =
          (l.filter (fun s => decide (s.name ∈ completed))).map (fun s => s.name) := by
  intro l
  induction l with
  | nil => intro ctx _; simp [rollbackLoop, rollbackCalls]
  | cons step rest ih =>
    intro ctx hE
    have hEstep := hE step (List.mem_cons_self step rest)
    have hErest : ∀ s ∈ rest, ∀ c e, (s.rollback c).2 = some e → isExceptionInstance e = true :=
      fun s hs => hE s (List.mem_cons_of_mem step hs)
    by_cases hmem : step.name ∈ completed
    · rcases hrb : (step.rollback ctx).2 with _ | e
      · rw [rollbackLoop_cons_ok ui completed step rest ctx hmem hrb]
        obtain ⟨h1, h2⟩ := ih ((step.rollback ctx).1) hErest
        dsimp only
        refine ⟨h1, ?_⟩
        rw [List.append_assoc, rollbackCalls_append, rollbackCalls_append,
          rollbackCalls_ite_status, rollbackCalls_single, h2]
        simp [List.filter_cons, hmem]
      · have hEe : isExceptionInstance e = true := hEstep _ _ hrb
        rw [rollbackLoop_cons_exc ui completed step rest ctx e hmem hrb hEe]
        obtain ⟨h1, h2⟩ := ih ((step.rollback ctx).1) hErest
        dsimp only
        refine ⟨h1, ?_⟩
        rw [rollbackCalls_append, List.append_assoc, rollbackCalls_append,
          rollbackCalls_ite_status, rollbackCalls_append, rollbackCalls_ite_error,
          rollbackCalls_single, h2]
        simp [List.filter_cons, hmem]
    · rw [rollbackLoop_cons_skip ui completed step rest ctx hmem]
      obtain ⟨h1, h2⟩ := ih ctx hErest
      refine ⟨h1, ?_⟩
      rw [h2]
      simp [List.filter_cons, hmem]

theorem runLoop_cons_skip (ui : Bool) (allSteps : List StepBehavior)
    (step : StepBehavior) (rest : List StepBehavior) (ctx : InstallContext)
    (hcheck : step.check ctx = true) :
    runLoop ui allSteps (step :: rest) ctx =
      ⟨(runLoop ui allSteps rest ctx).ctx,
       ((if ui then [Event.uiStep (stepTitle step.name)] else []) ++
          [Event.checkCall step.name] ++
          (if ui then [Event.uiInfo "Already complete, skipping"] else [])) ++
         (runLoop ui allSteps rest ctx).trace,
       (runLoop ui allSteps rest ctx).exc⟩ := by
  simp only [runLoop]
  rw [if_pos hcheck]

theorem runLoop_cons_ok (ui : Bool) (allSteps : List StepBehavior)
    (step : StepBehavior) (rest : List StepBehavior) (ctx : InstallContext)
    (hcheck : step.check ctx = false) (hrun : (step.run ctx).2 = none) :
    runLoop ui allSteps (step :: rest) ctx =
      ⟨(runLoop ui allSteps rest ((step.run ctx).1.mark_completed step.name)).ctx,
       ((if ui then [Event.uiStep (stepTitle step.name)] else []) ++
          [Event.checkCall step.name] ++
          [Event.runCall step.name, Event.markCompleted step.name]) ++
         (runLoop ui allSteps rest ((step.run ctx).1.mark_completed step.name)).trace,
       (runLoop ui allSteps rest ((step.run ctx).1.mark_completed step.name)).exc⟩ := by
  simp only [runLoop]
  rw [if_neg (by simp [hcheck]), hrun]

theorem runLoop_cons_fatal (ui : Bool) (allSteps : List StepBehavior)
    (step : StepBehavior) (rest : List StepBehavior) (ctx : InstallContext) (e : PyExc)
    (hcheck : step.check ctx = false) (hrun : (step.run ctx).2 = some e)
    (hfatal : isFatalInstallError e = true) :
    runLoop ui allSteps (step :: rest) ctx =
      ⟨(rollback_completed_steps (step.run ctx).1 allSteps).ctx,
       ((if ui then [Event.uiStep (stepTitle step.name)] else []) ++
          [Event.checkCall step.name] ++ [Event.runCall step.name]) ++
         (rollback_completed_steps (step.run ctx).1 allSteps).trace,
       some (((rollback_completed_steps (step.run ctx).1 allSteps).exc).getD e)⟩ := by
  simp only [runLoop]
  rw [if_neg (by simp [hcheck]), hrun]
  dsimp only
  rw [if_pos hfatal]
  cases hrbe : (rollback_completed_steps (step.run ctx).1 allSteps).exc <;> simp

theorem runLoop_cons_raise (ui : Bool) (allSteps : List StepBehavior)
    (step : StepBehavior) (rest : List StepBehavior) (ctx : InstallContext) (e : PyExc)
    (hcheck : step.check ctx = false) (hrun : (step.run ctx).2 = some e)
    (hfatal : isFatalInstallError e = false) :
    runLoop ui allSteps (step :: rest) ctx =
      ⟨(step.run ctx).1,
       (if ui then [Event.uiStep (stepTitle step.name)] else []) ++
         [Event.checkCall step.name] ++ [Event.runCall step.name],
       some e⟩ := by
  simp only [runLoop]
  rw [if_neg (by simp [hcheck]), hrun]
  dsimp only
  rw [if_neg (by simp [hfatal])]

theorem runLoop_append (ui : Bool) (allSteps l1 l2 : List StepBehavior) :
    ∀ ctx : InstallContext, (runLoop ui allSteps l1 ctx).exc = none →
      runLoop ui allSteps (l1 ++ l2) ctx =
        ⟨(runLoop ui allSteps l2 (runLoop ui allSteps l1 ctx).ctx).ctx,
         (runLoop ui allSteps l1 ctx).trace ++
           (runLoop ui allSteps l2 (runLoop ui allSteps l1 ctx).ctx).trace,
         (runLoop ui allSteps l2 (runLoop ui allSteps l1 ctx).ctx).exc⟩ := by
  induction l1 with
  | nil => intro ctx _; simp [runLoop]
  | cons step rest ih =>
    intro ctx hexc
    cases hchk : step.check ctx
    case true =>
      rw [runLoop_cons_skip ui allSteps step rest ctx hchk] at hexc
      dsimp only at hexc
      rw [List.cons_append, runLoop_cons_skip ui allSteps step (rest ++ l2) ctx hchk,
        runLoop_cons_skip ui allSteps step rest ctx hchk]
      dsimp only
      rw [ih _ hexc]
      simp [List.append_assoc]
    case false =>
      rcases hrun : (step.run ctx).2 with _ | e
      · rw [runLoop_cons_ok ui allSteps step rest ctx hchk hrun] at hexc
        dsimp only at hexc
        rw [List.cons_append, runLoop_cons_ok ui allSteps step (rest ++ l2) ctx hchk hrun,
          runLoop_cons_ok ui allSteps step rest ctx hchk hrun]
        dsimp only
        rw [ih _ hexc]
        simp [List.append_assoc]
      · cases hfat : isFatalInstallError e
        case false =>
          rw [runLoop_cons_raise ui allSteps step rest ctx e hchk hrun hfat] at hexc
          simp at hexc
        case true =>
          rw [runLoop_cons_fatal ui allSteps step rest ctx e hchk hrun hfat] at hexc
          simp at hexc

theorem runLoop_classify (ui : Bool) (allSteps : List StepBehavior) :
    ∀ (l : List StepBehavior) (ctx : InstallContext) (ev : Event),
      ev ∈ (runLoop ui allSteps l ctx).trace →
      (∃ s, s ∈ l ∧ (ev = Event.uiStep (stepTitle s.name) ∨ ev = Event.checkCall s.name ∨
        ev = Event.uiInfo "Already complete, skipping" ∨ ev = Event.runCall s.name ∨
        ev = Event.markCompleted s.name)) ∨ isRollbackEvent ev = true := by
  intro l
  induction l with
  | nil => intro ctx ev hev; simp [runLoop] at hev
  | cons step rest ih =>
    intro ctx ev hev
    have hlift : ∀ s, s ∈ rest → s ∈ step :: rest := fun s hs => List.mem_cons_of_mem step hs
    cases hchk : step.check ctx
    case true =>
      rw [runLoop_cons_skip ui allSteps step rest ctx hchk] at hev
      dsimp only at hev
      simp only [List.append_assoc, List.mem_append, List.mem_singleton] at hev
      rcases hev with h | h | h | h
      · exact Or.inl ⟨step, List.mem_cons_self step rest, Or.inl (mem_ite_singleton h)⟩
      · exact Or.inl ⟨step, List.mem_cons_self step rest, Or.inr (Or.inl h)⟩
      · exact Or.inl ⟨step, List.mem_cons_self step rest,
          Or.inr (Or.inr (Or.inl (mem_ite_singleton h)))⟩
      · rcases ih ctx ev h with ⟨s, hs, hd⟩ | hrb
        · exact Or.inl ⟨s, hlift s hs, hd⟩
        · exact Or.inr hrb
    case false =>
      rcases hrun : (step.run ctx).2 with _ | e
      · rw [runLoop_cons_ok ui allSteps step rest ctx hchk hrun] at hev
        dsimp only at hev
        rcases List.mem_append.mp hev with hseg | hrest
        · rcases List.mem_append.mp hseg with hac | hrm
          · rcases List.mem_append.mp hac with hA | hc
            · exact Or.inl ⟨step, List.mem_cons_self step rest,
                Or.inl (mem_ite_singleton hA)⟩
            · exact Or.inl ⟨step, List.mem_cons_self step rest,
                Or.inr (Or.inl (by simpa using hc))⟩
          · have hrm2 : ev = Event.runCall step.name ∨ ev = Event.markCompleted step.name := by
              simpa using hrm
            rcases hrm2 with h | h
            · exact Or.inl ⟨step, List.mem_cons_self step rest,
                Or.inr (Or.inr (Or.inr (Or.inl h)))⟩
            · exact Or.inl ⟨step, List.mem_cons_self step rest,
                Or.inr (Or.inr (Or.inr (Or.inr h)))⟩
        · rcases ih _ ev hrest with ⟨s, hs, hd⟩ | hrb
          · exact Or.inl ⟨s, hlift s hs, hd⟩
          · exact Or.inr hrb
      · cases hfat : isFatalInstallError e
        case false =>
          rw [runLoop_cons_raise ui allSteps step rest ctx e hchk hrun hfat] at hev
          dsimp only at hev
          simp only [List.append_assoc, List.mem_append, List.mem_singleton] at hev
          rcases hev with h | h | h
          · exact Or.inl ⟨step, List.mem_cons_self step rest, Or.inl (mem_ite_singleton h)⟩
          · exact Or.inl ⟨step, List.mem_cons_self step rest, Or.inr (Or.inl h)⟩
          · exact Or.inl ⟨step, List.mem_cons_self step rest,
              Or.inr (Or.inr (Or.inr (Or.inl h)))⟩
        case true =>
          rw [runLoop_cons_fatal ui allSteps step rest ctx e hchk hrun hfat] at hev
          dsimp only at hev
          simp only [List.append_assoc, List.mem_append, List.mem_singleton] at hev
          rcases hev with h | h | h | h
          · exact Or.inl ⟨step, List.mem_cons_self step rest, Or.inl (mem_ite_singleton h)⟩
          · exact Or.inl ⟨step, List.mem_cons_self step rest, Or.inr (Or.inl h)⟩
          · exact Or.inl ⟨step, List.mem_cons_self step rest,
              Or.inr (Or.inr (Or.inr (Or.inl h)))⟩
          · exact Or.inr (rollback_trace_rb _ _ ev h)

theorem runLoop_checkCall_names (ui : Bool) (allSteps l : List StepBehavior)
    (ctx : InstallContext) (n : String)
    (h : Event.checkCall n ∈ (runLoop ui allSteps l ctx).trace) :
    n ∈ l.map (fun s => s.name) := by
  rcases runLoop_classify ui allSteps l ctx _ h with ⟨s, hs, hd⟩ | hrb
  · rcases hd with h1 | h1 | h1 | h1 | h1 <;> simp at h1
    exact h1 ▸ List.mem_map_of_mem (fun s => s.name) hs
  · simp [isRollbackEvent] at hrb

theorem runLoop_runCall_names (ui : Bool) (allSteps l : List StepBehavior)
    (ctx : InstallContext) (n : String)
    (h : Event.runCall n ∈ (runLoop ui allSteps l ctx).trace) :
    n ∈ l.map (fun s => s.name) := by
  rcases runLoop_classify ui allSteps l ctx _ h with ⟨s, hs, hd⟩ | hrb
  · rcases hd with h1 | h1 | h1 | h1 | h1 <;> simp at h1
    exact h1 ▸ List.mem_map_of_mem (fun s => s.name) hs
  · simp [isRollbackEvent] at hrb

theorem runLoop_markCompleted_names (ui : Bool) (allSteps l : List StepBehavior)
    (ctx : InstallContext) (n : String)
    (h : Event.markCompleted n ∈ (runLoop ui allSteps l ctx).trace) :
    n ∈ l.map (fun s => s.name) := by
  rcases runLoop_classify ui allSteps l ctx _ h with ⟨s, hs, hd⟩ | hrb
  · rcases hd with h1 | h1 | h1 | h1 | h1 <;> simp at h1
    exact h1 ▸ List.mem_map_of_mem (fun s => s.name) hs
  · simp [isRollbackEvent] at hrb

theorem runLoop_none_no_rb (ui : Bool) (allSteps : List StepBehavior) :
    ∀ (l : List StepBehavior) (ctx : InstallContext),
      (runLoop ui allSteps l ctx).exc = none →
      ∀ ev ∈ (runLoop ui allSteps l ctx).trace, isRollbackEvent ev = false := by
  intro l
  induction l with
  | nil => intro ctx _ ev hev; simp [runLoop] at hev
  | cons step rest ih =>
    intro ctx hexc ev hev
    cases hchk : step.check ctx
    case true =>
      rw [runLoop_cons_skip ui allSteps step rest ctx hchk] at hexc hev
      dsimp only at hexc hev
      rcases List.mem_append.mp hev with hseg | hrest
      · rcases List.mem_append.mp hseg with hac | hinfo
        · rcases List.mem_append.mp hac with hA | hc
          · rw [mem_ite_singleton hA]; rfl
          · rw [show ev = Event.checkCall step.name by simpa using hc]; rfl
        · rw [mem_ite_singleton hinfo]; rfl
      · exact ih ctx hexc ev hrest
    case false =>
      rcases hrun : (step.run ctx).2 with _ | e
      · rw [runLoop_cons_ok ui allSteps step rest ctx hchk hrun] at hexc hev
        dsimp only at hexc hev
        rcases List.mem_append.mp hev with hseg | hrest
        · rcases List.mem_append.mp hseg with hac | hrm
          · rcases List.mem_append.mp hac with hA | hc
            · rw [mem_ite_singleton hA]; rfl
            · rw [show ev = Event.checkCall step.name by simpa using hc]; rfl
          · have hrm2 : ev = Event.runCall step.name ∨ ev = Event.markCompleted step.name := by
              simpa using hrm
            rcases hrm2 with h | h <;> rw [h] <;> rfl
        · exact ih _ hexc ev hrest
      · cases hfat : isFatalInstallError e
        case false =>
          rw [runLoop_cons_raise ui allSteps step rest ctx e hchk hrun hfat] at hexc
          simp at hexc
        case true =>
          rw [runLoop_cons_fatal ui allSteps step rest ctx e hchk hrun hfat] at hexc
          simp at hexc

/-- Automaton deciding that every `markCompleted n` event in a trace
immediately follows a `runCall n` event: the state is the name of the run
call seen at the previous position, if any. -/
def marksOkFrom : Option String → List Event → Bool
  | _, [] => true
  | last, .markCompleted n :: rest => (last = some n) && marksOkFrom none rest
  | _, .runCall n :: rest => marksOkFrom (some n) rest
  | _, _ :: rest => marksOkFrom none rest

/-- Every completion bookkeeping event in the trace immediately follows the
run call of the same step name. -/
def marksOk (t : List Event) : Bool := marksOkFrom none t

/-- The trace does not begin with a `markCompleted` event. -/
def headNotMark : List Event → Bool
  | .markCompleted _ :: _ => false
  | _ => true

theorem marksOkFrom_irrel (t : List Event) (h : headNotMark t = true) (last : Option String) :
    marksOkFrom last t = marksOkFrom none t := by
  cases t with
  | nil => rfl
  | cons e rest => cases e <;> first | rfl | simp [headNotMark] at h

theorem marksOkFrom_append (t2 : List Event) (h2 : marksOkFrom none t2 = true)
    (hh : headNotMark t2 = true) :
    ∀ (t1 : List Event) (last : Option String), marksOkFrom last t1 = true →
      marksOkFrom last (t1 ++ t2) = true := by
  intro t1
  induction t1 with
  | nil =>
    intro last _
    rw [List.nil_append, marksOkFrom_irrel t2 hh last]
    exact h2
  | cons e rest ih =>
    intro last h1
    cases e with
    | markCompleted n =>
      simp only [marksOkFrom, Bool.and_eq_true] at h1
      simp only [List.cons_append, marksOkFrom, Bool.and_eq_true]
      exact ⟨h1.1, ih none h1.2⟩
    | runCall n =>
      simp only [marksOkFrom] at h1
      simp only [List.cons_append, marksOkFrom]
      exact ih (some n) h1
    | checkCall n => exact ih none h1
    | rollbackCall n => exact ih none h1
    | uiBanner => exact ih none h1
    | uiTotalSteps n => exact ih none h1
    | uiStep m => exact ih none h1
    | uiInfo m => exact ih none h1
    | uiStatus m => exact ih none h1
    | uiWarning m => exact ih none h1
    | uiError m => exact ih none h1

theorem marksOkFrom_noMark :
    ∀ t : List Event, (∀ n, Event.markCompleted n ∉ t) →
      ∀ last : Option String, marksOkFrom last t = true := by
  intro t
  induction t with
  | nil => intro _ last; rfl
  | cons e rest ih =>
    intro h last
    have hrest : ∀ n, Event.markCompleted n ∉ rest := by
      intro n hn
      exact h n (List.mem_cons_of_mem e hn)
    cases e with
    | markCompleted n => exact absurd (List.mem_cons_self _ rest) (h n)
    | runCall n => exact ih hrest (some n)
    | checkCall n => exact ih hrest none
    | rollbackCall n => exact ih hrest none
    | uiBanner => exact ih hrest none
    | uiTotalSteps n => exact ih hrest none
    | uiStep m => exact ih hrest none
    | uiInfo m => exact ih hrest none
    | uiStatus m => exact ih hrest none
    | uiWarning m => exact ih hrest none
    | uiError m => exact ih hrest none

theorem headNotMark_of_noMark (t : List Event) (h : ∀ n, Event.markCompleted n ∉ t) :
    headNotMark t = true := by
  cases t with
  | nil => rfl
  | cons e rest =>
    cases e with
    | markCompleted n => exact absurd (List.mem_cons_self _ rest) (h n)
    | runCall n => rfl
    | checkCall n => rfl
    | rollbackCall n => rfl
    | uiBanner => rfl
    | uiTotalSteps n => rfl
    | uiStep m => rfl
    | uiInfo m => rfl
    | uiStatus m => rfl
    | uiWarning m => rfl
    | uiError m => rfl

theorem rollback_noMark (ctx : InstallContext) (steps : List StepBehavior) :
    ∀ n, Event.markCompleted n ∉ (rollback_completed_steps ctx steps).trace := by
  intro n hn
  have h := rollback_trace_rb ctx steps _ hn
  simp [isRollbackEvent] at h

theorem runLoop_headNotMark (ui : Bool) (allSteps : List StepBehavior) :
    ∀ (l : List StepBehavior) (ctx : InstallContext),
      headNotMark (runLoop ui allSteps l ctx).trace = true := by
  intro l ctx
  cases l with
  | nil => rfl
  | cons step rest =>
    cases hchk : step.check ctx
    case true =>
      rw [runLoop_cons_skip ui allSteps step rest ctx hchk]
      cases ui <;> rfl
    case false =>
      rcases hrun : (step.run ctx).2 with _ | e
      · rw [runLoop_cons_ok ui allSteps step rest ctx hchk hrun]
        cases ui <;> rfl
      · cases hfat : isFatalInstallError e
        case false =>
          rw [runLoop_cons_raise ui allSteps step rest ctx e hchk hrun hfat]
          cases ui <;> rfl
        case true =>
          rw [runLoop_cons_fatal ui allSteps step rest ctx e hchk hrun hfat]
          cases ui <;> rfl

theorem runLoop_marksOk (ui : Bool) (allSteps : List StepBehavior) :
    ∀ (l : List StepBehavior) (ctx : InstallContext),
      marksOk (runLoop ui allSteps l ctx).trace = true := by
  intro l
  induction l with
  | nil => intro ctx; rfl
  | cons step rest ih =>
    intro ctx
    cases hchk : step.check ctx
    case true =>
      rw [runLoop_cons_skip ui allSteps step rest ctx hchk]
      dsimp only
      exact marksOkFrom_append _ (ih ctx) (runLoop_headNotMark ui allSteps rest ctx) _ none
        (by cases ui <;> simp [marksOkFrom])
    case false =>
      rcases hrun : (step.run ctx).2 with _ | e
      · rw [runLoop_cons_ok ui allSteps step rest ctx hchk hrun]
        dsimp only
        exact marksOkFrom_append _ (ih _) (runLoop_headNotMark ui allSteps rest _) _ none
          (by cases ui <;> simp [marksOkFrom])
      · cases hfat : isFatalInstallError e
        case false =>
          rw [runLoop_cons_raise ui allSteps step rest ctx e hchk hrun hfat]
          dsimp only
          cases ui <;> simp [marksOk, marksOkFrom]
        case true =>
          rw [runLoop_cons_fatal ui allSteps step rest ctx e hchk hrun hfat]
          dsimp only
          refine marksOkFrom_append _ ?_ ?_ _ none (by cases ui <;> simp [marksOkFrom])
          · exact marksOkFrom_noMark _ (fun n => rollback_noMark _ _ n) none
          · exact headNotMark_of_noMark _ (fun n => rollback_noMark _ _ n)

theorem run_installation_marksOk (steps : List StepBehavior) (ctx : InstallContext) :
    marksOk (run_installation steps ctx).trace = true := by
  simp only [run_installation]
  exact marksOkFrom_append _ (runLoop_marksOk ctx.ui steps steps ctx)
    (runLoop_headNotMark ctx.ui steps steps ctx) _ none
    (by cases hui : ctx.ui <;> simp [marksOkFrom])

/-! ### Helper facts about completion bookkeeping -/

theorem mark_completed_mem (c : InstallContext) (n : String) :
    n ∈ (c.mark_completed n).completed_steps := by
  by_cases hm : n ∈ c.completed_steps <;> simp [InstallContext.mark_completed, hm]

theorem mark_completed_noop (c : InstallContext) (n : String)
    (h : n ∈ c.completed_steps) : c.mark_completed n = c := by
  simp [InstallContext.mark_completed, h]

theorem mark_completed_count_one (c : InstallContext) (n : String)
    (h : c.completed_steps.count n ≤ 1) :
    (c.mark_completed n).completed_steps.count n = 1 := by
  by_cases hm : n ∈ c.completed_steps
  · rw [mark_completed_noop c n hm]
    have h1 : 0 < c.completed_steps.count n := List.count_pos_iff.mpr hm
    omega
  · simp only [InstallContext.mark_completed, if_neg hm, List.count_append]
    rw [List.count_eq_zero.mpr hm]
    simp

theorem iterate_mark_completed_noop (n : String) :
    ∀ (j : ℕ) (c : InstallContext), n ∈ c.completed_steps →
      (fun x => x.mark_completed n)^[j] c = c := by
  intro j
  induction j with
  | zero => intro c _; rfl
  | succ j ih =>
    intro c h
    rw [Function.iterate_succ_apply, mark_completed_noop c n h]
    exact ih c h

/-- A mock step with constant behaviors: `check` always returns `checkB`,
`run` and `rollback` leave the context unchanged and raise the given
exceptions, if any. Used to instantiate the orchestrator theorems and
counterexamples on concrete inputs, in the style of the spec's mock-step
test scenarios (spec section 8). -/
def mkStep (name : String) (checkB : Bool) (runExc rollbackExc : Option PyExc) : StepBehavior :=
  ⟨name, fun _ => checkB, fun c => (c, runExc), fun c => (c, rollbackExc)⟩

/-! ### The claims -/

/-- C7: for every context, `needs_rollback()` returns true iff
`completed_steps` is non-empty; it is false on a freshly constructed context
and becomes true after any `mark_completed` call. -/
theorem c7_needs_rollback_iff_completed :
    (∀ ctx : InstallContext, ctx.needs_rollback = true ↔ ctx.completed_steps ≠ []) ∧
    (∀ d : String, ({ project_dir := d } : InstallContext).needs_rollback = false) ∧
    (∀ (ctx : InstallContext) (n : String), (ctx.mark_completed n).needs_rollback = true) := by
  refine ⟨?_, ?_, ?_⟩
  · intro ctx
    simp [InstallContext.needs_rollback, List.isEmpty_iff]
  · intro d; rfl
  · intro ctx n
    have hmem := mark_completed_mem ctx n
    simp only [InstallContext.needs_rollback, Bool.not_eq_true']
    rw [List.isEmpty_eq_false]
    exact List.ne_nil_of_mem hmem

/-- C8: `get_all_steps()` returns a fixed ordered list with pairwise
distinct step names, in which preflight is first, finalize is last, the
git-setup step precedes the dependencies step, and the claude_files step
precedes the config_files step. -/
theorem c8_get_all_steps_order :
    (get_all_steps.map (fun s => s.name)).Nodup ∧
    (get_all_steps.map (fun s => s.name)).head? = some "preflight" ∧
    (get_all_steps.map (fun s => s.name)).getLast? = some "finalize" ∧
    (get_all_steps.map (fun s => s.name)).indexOf "git_setup" <
      (get_all_steps.map (fun s => s.name)).indexOf "dependencies" ∧
    (get_all_steps.map (fun s => s.name)).indexOf "claude_files" <
      (get_all_steps.map (fun s => s.name)).indexOf "config_files" := by
  have hnames : get_all_steps.map (fun s => s.name) =
      ["preflight", "devcontainer", "bootstrap", "migration", "git_setup",
       "claude_files", "config_files", "dependencies", "environment", "premium",
       "shell_config", "finalize"] := rfl
  rw [hnames]
  refine ⟨?_, rfl, rfl, ?_, ?_⟩ <;> decide

/-- C9: every step produced by `get_all_steps()` has a `check` that leaves
the context unchanged (all fields, including the toggles, config bag and
completed list, since the whole record is returned untouched); the cached
`CcpBinaryStep.check` likewise only updates its own cache fields and returns
the context unchanged. -/
theorem c9_check_preserves_context :
    (∀ s ∈ get_all_steps, ∀ (ctx : InstallContext) (w : World), (s.check ctx w).2 = ctx) ∧
    (∀ (cache : CcpCache) (ctx : InstallContext) (w : World),
      (CcpBinaryStep.check cache ctx w).2.1 = ctx) := by
  constructor
  · intro s hs ctx w
    simp only [get_all_steps, List.mem_cons, List.not_mem_nil, or_false] at hs
    rcases hs with h|h|h|h|h|h|h|h|h|h|h|h <;> subst h <;> rfl
  · intro cache ctx w
    unfold CcpBinaryStep.check
    dsimp only
    repeat' split
    all_goals rfl

/-- C9 witness: the config_files step is in the list and its check returns
the context unchanged. -/
theorem c9_witness :
    ConfigFilesStep ∈ get_all_steps ∧
    (∀ (ctx : InstallContext) (w : World), (ConfigFilesStep.check ctx w).2 = ctx) := by
  have hmem : ConfigFilesStep ∈ get_all_steps := by simp [get_all_steps]
  exact ⟨hmem, c9_check_preserves_context.1 ConfigFilesStep hmem⟩

/-- Decomposition of one `run_installation` outcome at a distinguished step:
when the loop traverses the prefix without an exception, the whole result is
the prefix trace followed by the processing of the remaining steps from the
context the prefix produced. -/
theorem run_installation_decomp (steps pre : List StepBehavior) (s : StepBehavior)
    (post : List StepBehavior) (ctx c1 : InstallContext) (t1 : List Event)
    (hsteps : steps = pre ++ s :: post)
    (hpre : runLoop ctx.ui steps pre ctx = ⟨c1, t1, none⟩) :
    run_installation steps ctx =
      ⟨(runLoop ctx.ui steps (s :: post) c1).ctx,
       (if ctx.ui then [Event.uiTotalSteps steps.length] else []) ++
         (t1 ++ (runLoop ctx.ui steps (s :: post) c1).trace),
       (runLoop ctx.ui steps (s :: post) c1).exc⟩ := by
  subst hsteps
  simp only [run_installation]
  rw [runLoop_append ctx.ui (pre ++ s :: post) pre (s :: post) ctx (by rw [hpre]), hpre]

/-- Fresh headless context used to instantiate the orchestrator theorems. -/
def wCtx : InstallContext := { project_dir := "/w" }

/-- C6: after a step's run completes without raising inside
`run_installation`, the context on which the loop continues has the step
marked completed and `is_completed` true for its name; and `mark_completed`
is idempotent: from any context holding a name at most once, applying it any
positive number of times leaves the name exactly once in the completed
list. -/
theorem c6_completion_bookkeeping
    (pre : List StepBehavior) (s : StepBehavior) (post : List StepBehavior)
    (ctx c1 : InstallContext) (t1 : List Event)
    (hpre : runLoop ctx.ui (pre ++ s :: post) pre ctx = ⟨c1, t1, none⟩)
    (hcheck : s.check c1 = false) (hrun : (s.run c1).2 = none) :
    (((s.run c1).1.mark_completed s.name).is_completed s.name = true) ∧
    run_installation (pre ++ s :: post) ctx =
      ⟨(runLoop ctx.ui (pre ++ s :: post) post ((s.run c1).1.mark_completed s.name)).ctx,
       (if ctx.ui then [Event.uiTotalSteps (pre ++ s :: post).length] else []) ++
         (t1 ++ (((if ctx.ui then [Event.uiStep (stepTitle s.name)] else []) ++
            [Event.checkCall s.name] ++
            [Event.runCall s.name, Event.markCompleted s.name]) ++
          (runLoop ctx.ui (pre ++ s :: post) post
            ((s.run c1).1.mark_completed s.name)).trace)),
       (runLoop ctx.ui (pre ++ s :: post) post ((s.run c1).1.mark_completed s.name)).exc⟩ ∧
    (∀ (c : InstallContext) (n : String) (k : ℕ),
      c.completed_steps.count n ≤ 1 → 1 ≤ k →
      ((fun x => x.mark_completed n)^[k] c).completed_steps.count n = 1) := by
  refine ⟨?_, ?_, ?_⟩
  · have hmem := mark_completed_mem (s.run c1).1 s.name
    simp [InstallContext.is_completed, hmem]
  · rw [run_installation_decomp _ pre s post ctx c1 t1 rfl hpre,
      runLoop_cons_ok ctx.ui _ s post c1 hcheck hrun]
  · intro c n k h1 hk
    obtain ⟨j, rfl⟩ : ∃ j, k = j + 1 := ⟨k - 1, by omega⟩
    rw [Function.iterate_succ_apply,
      iterate_mark_completed_noop n j _ (mark_completed_mem c n)]
    exact mark_completed_count_one c n h1

/-- C6 witness: a concrete successful step run marks the step completed. -/
theorem c6_witness :
    ((mkStep "A" false none none).check wCtx = false) ∧
    (((mkStep "A" false none none).run wCtx).2 = none) ∧
    ((((mkStep "A" false none none).run wCtx).1.mark_completed "A").is_completed "A" = true) :=
  ⟨rfl, rfl,
    (c6_completion_bookkeeping [] (mkStep "A" false none none) [] wCtx wCtx [] rfl rfl rfl).1⟩

/-- C4: when a step's check returns true, `run_installation` emits only the
header, check and skip-info events for it: its run is not called, it is not
marked completed, and the loop proceeds to the next step on the unchanged
context; moreover (for arbitrary steps and contexts) every `markCompleted`
event in a trace immediately follows the successful run call of the same
step name, so a step is marked completed only after its run returns without
raising. -/
theorem c4_skip_correctness
    (pre : List StepBehavior) (s : StepBehavior) (post : List StepBehavior)
    (ctx c1 : InstallContext) (t1 : List Event)
    (hpre : runLoop ctx.ui (pre ++ s :: post) pre ctx = ⟨c1, t1, none⟩)
    (hcheck : s.check c1 = true)
    (hpren : s.name ∉ pre.map (fun st => st.name))
    (hpostn : s.name ∉ post.map (fun st => st.name)) :
    run_installation (pre ++ s :: post) ctx =
      ⟨(runLoop ctx.ui (pre ++ s :: post) post c1).ctx,
       (if ctx.ui then [Event.uiTotalSteps (pre ++ s :: post).length] else []) ++
         (t1 ++ (((if ctx.ui then [Event.uiStep (stepTitle s.name)] else []) ++
            [Event.checkCall s.name] ++
            (if ctx.ui then [Event.uiInfo "Already complete, skipping"] else [])) ++
          (runLoop ctx.ui (pre ++ s :: post) post c1).trace)),
       (runLoop ctx.ui (pre ++ s :: post) post c1).exc⟩ ∧
    Event.runCall s.name ∉ (run_installation (pre ++ s :: post) ctx).trace ∧
    Event.markCompleted s.name ∉ (run_installation (pre ++ s :: post) ctx).trace ∧
    (∀ (steps2 : List StepBehavior) (ctx2 : InstallContext),
      marksOk (run_installation steps2 ctx2).trace = true) := by
  have heq : run_installation (pre ++ s :: post) ctx =
      ⟨(runLoop ctx.ui (pre ++ s :: post) post c1).ctx,
       (if ctx.ui then [Event.uiTotalSteps (pre ++ s :: post).length] else []) ++
         (t1 ++ (((if ctx.ui then [Event.uiStep (stepTitle s.name)] else []) ++
            [Event.checkCall s.name] ++
            (if ctx.ui then [Event.uiInfo "Already complete, skipping"] else [])) ++
          (runLoop ctx.ui (pre ++ s :: post) post c1).trace)),
       (runLoop ctx.ui (pre ++ s :: post) post c1).exc⟩ := by
    rw [run_installation_decomp _ pre s post ctx c1 t1 rfl hpre,
      runLoop_cons_skip ctx.ui _ s post c1 hcheck]
  have ht1names : ∀ n, Event.runCall n ∈ t1 ∨ Event.markCompleted n ∈ t1 →
      n ∈ pre.map (fun st => st.name) := by
    intro n hn
    rcases hn with hn | hn
    · exact runLoop_runCall_names ctx.ui _ pre ctx n (by rw [hpre]; exact hn)
    · exact runLoop_markCompleted_names ctx.ui _ pre ctx n (by rw [hpre]; exact hn)
  refine ⟨heq, ?_, ?_, fun steps2 ctx2 => run_installation_marksOk steps2 ctx2⟩
  · intro hmem
    rw [heq] at hmem
    dsimp only at hmem
    rcases List.mem_append.mp hmem with h0 | h1
    · have := mem_ite_singleton h0; simp at this
    rcases List.mem_append.mp h1 with ht1 | h2
    · exact hpren (ht1names s.name (Or.inl ht1))
    rcases List.mem_append.mp h2 with hseg | hR
    · rcases List.mem_append.mp hseg with hac | hinfo
      · rcases List.mem_append.mp hac with hA | hc
        · have := mem_ite_singleton hA; simp at this
        · simp at hc
      · have := mem_ite_singleton hinfo; simp at this
    · exact hpostn (runLoop_runCall_names ctx.ui _ post c1 s.name hR)
  · intro hmem
    rw [heq] at hmem
    dsimp only at hmem
    rcases List.mem_append.mp hmem with h0 | h1
    · have := mem_ite_singleton h0; simp at this
    rcases List.mem_append.mp h1 with ht1 | h2
    · exact hpren (ht1names s.name (Or.inr ht1))
    rcases List.mem_append.mp h2 with hseg | hR
    · rcases List.mem_append.mp hseg with hac | hinfo
      · rcases List.mem_append.mp hac with hA | hc
        · have := mem_ite_singleton hA; simp at this
        · simp at hc
      · have := mem_ite_singleton hinfo; simp at this
    · exact hpostn (runLoop_markCompleted_names ctx.ui _ post c1 s.name hR)

/-- C4 witness: a skipped step (check true) in a concrete one-step pipeline
has no run call and no completion bookkeeping in the trace. -/
theorem c4_witness :
    ((mkStep "S" true none none).check wCtx = true) ∧
    Event.runCall "S" ∉ (run_installation [mkStep "S" true none none] wCtx).trace ∧
    Event.markCompleted "S" ∉ (run_installation [mkStep "S" true none none] wCtx).trace :=
  ⟨rfl,
    (c4_skip_correctness [] (mkStep "S" true none none) [] wCtx wCtx []
      rfl rfl (by simp) (by simp)).2.1,
    (c4_skip_correctness [] (mkStep "S" true none none) [] wCtx wCtx []
      rfl rfl (by simp) (by simp)).2.2.1⟩

/-- C5: an exception escaping a step's run that is not a
`FatalInstallError` (recoverable `InstallError` subclasses and any other
exception alike) propagates out of `run_installation` unchanged, without
`rollback_completed_steps` being invoked (no rollback warning and no
rollback call appears in the trace) and without any later step being
checked or run. -/
theorem c5_nonfatal_propagates
    (pre : List StepBehavior) (s : StepBehavior) (post : List StepBehavior)
    (ctx c1 : InstallContext) (t1 : List Event) (e : PyExc)
    (hpre : runLoop ctx.ui (pre ++ s :: post) pre ctx = ⟨c1, t1, none⟩)
    (hcheck : s.check c1 = false)
    (hrun : (s.run c1).2 = some e)
    (hnonfatal : isFatalInstallError e = false)
    (hpostn : ∀ st ∈ post, st.name ∉ pre.map (fun x => x.name) ∧ st.name ≠ s.name) :
    run_installation (pre ++ s :: post) ctx =
      ⟨(s.run c1).1,
       (if ctx.ui then [Event.uiTotalSteps (pre ++ s :: post).length] else []) ++
         (t1 ++ ((if ctx.ui then [Event.uiStep (stepTitle s.name)] else []) ++
           [Event.checkCall s.name] ++ [Event.runCall s.name])),
       some e⟩ ∧
    (∀ n, Event.rollbackCall n ∉ (run_installation (pre ++ s :: post) ctx).trace) ∧
    Event.uiWarning "Rolling back installation..." ∉
      (run_installation (pre ++ s :: post) ctx).trace ∧
    (∀ st ∈ post, Event.checkCall st.name ∉ (run_installation (pre ++ s :: post) ctx).trace ∧
      Event.runCall st.name ∉ (run_installation (pre ++ s :: post) ctx).trace) := by
  have heq : run_installation (pre ++ s :: post) ctx =
      ⟨(s.run c1).1,
       (if ctx.ui then [Event.uiTotalSteps (pre ++ s :: post).length] else []) ++
         (t1 ++ ((if ctx.ui then [Event.uiStep (stepTitle s.name)] else []) ++
           [Event.checkCall s.name] ++ [Event.runCall s.name])),
       some e⟩ := by
    rw [run_installation_decomp _ pre s post ctx c1 t1 rfl hpre,
      runLoop_cons_raise ctx.ui _ s post c1 e hcheck hrun hnonfatal]
  have ht1rb : ∀ ev ∈ t1, isRollbackEvent ev = false := by
    intro ev hev
    exact runLoop_none_no_rb ctx.ui _ pre ctx (by rw [hpre]) ev (by rw [hpre]; exact hev)
  refine ⟨heq, ?_, ?_, ?_⟩
  · intro n hmem
    rw [heq] at hmem
    dsimp only at hmem
    rcases List.mem_append.mp hmem with h0 | h1
    · have := mem_ite_singleton h0; simp at this
    rcases List.mem_append.mp h1 with ht1 | h2
    · have := ht1rb _ ht1; simp [isRollbackEvent] at this
    rcases List.mem_append.mp h2 with hac | hr
    · rcases List.mem_append.mp hac with hA | hc
      · have := mem_ite_singleton hA; simp at this
      · simp at hc
    · simp at hr
  · intro hmem
    rw [heq] at hmem
    dsimp only at hmem
    rcases List.mem_append.mp hmem with h0 | h1
    · have := mem_ite_singleton h0; simp at this
    rcases List.mem_append.mp h1 with ht1 | h2
    · have := ht1rb _ ht1; simp [isRollbackEvent] at this
    rcases List.mem_append.mp h2 with hac | hr
    · rcases List.mem_append.mp hac with hA | hc
      · have := mem_ite_singleton hA; simp at this
      · simp at hc
    · simp at hr
  · intro st hst
    obtain ⟨hst1, hst2⟩ := hpostn st hst
    constructor
    · intro hmem
      rw [heq] at hmem
      dsimp only at hmem
      rcases List.mem_append.mp hmem with h0 | h1
      · have := mem_ite_singleton h0; simp at this
      rcases List.mem_append.mp h1 with ht1 | h2
      · exact hst1 (runLoop_checkCall_names ctx.ui _ pre ctx st.name (by rw [hpre]; exact ht1))
      rcases List.mem_append.mp h2 with hac | hr
      · rcases List.mem_append.mp hac with hA | hc
        · have := mem_ite_singleton hA; simp at this
        · have : st.name = s.name := by simpa using hc
          exact hst2 this
      · simp at hr
    · intro hmem
      rw [heq] at hmem
      dsimp only at hmem
      rcases List.mem_append.mp hmem with h0 | h1
      · have := mem_ite_singleton h0; simp at this
      rcases List.mem_append.mp h1 with ht1 | h2
      · exact hst1 (runLoop_runCall_names ctx.ui _ pre ctx st.name (by rw [hpre]; exact ht1))
      rcases List.mem_append.mp h2 with hac | hr
      · rcases List.mem_append.mp hac with hA | hc
        · have := mem_ite_singleton hA; simp at this
        · simp at hc
      · have : st.name = s.name := by simpa using hr
        exact hst2 this

/-- C5 witness: a concrete recoverable `DownloadError` escaping a mock
step's run propagates unchanged with no rollback call in the trace. -/
theorem c5_witness :
    (((mkStep "C" false (some (PyExc.downloadError "net down" none)) none).run wCtx).2 =
      some (PyExc.downloadError "net down" none)) ∧
    (isFatalInstallError (PyExc.downloadError "net down" none) = false) ∧
    run_installation [mkStep "C" false (some (PyExc.downloadError "net down" none)) none] wCtx =
      ⟨wCtx, [Event.checkCall "C", Event.runCall "C"],
       some (PyExc.downloadError "net down" none)⟩ :=
  ⟨rfl, rfl,
    (c5_nonfatal_propagates [] (mkStep "C" false (some (PyExc.downloadError "net down" none)) none)
      [] wCtx wCtx [] (PyExc.downloadError "net down" none) rfl rfl rfl rfl
      (by simp)).1⟩

/-- C1 exactly as stated: whenever a step's run raises a
`FatalInstallError` during `run_installation`, the orchestrator re-raises
the very same exception to its caller (after the rollback pass). -/
def C1Stated : Prop :=
  ∀ (pre : List StepBehavior) (s : StepBehavior) (post : List StepBehavior)
    (ctx c1 : InstallContext) (t1 : List Event) (e : PyExc),
    runLoop ctx.ui (pre ++ s :: post) pre ctx = ⟨c1, t1, none⟩ →
    s.check c1 = false → (s.run c1).2 = some e → isFatalInstallError e = true →
    (run_installation (pre ++ s :: post) ctx).exc = some e

/-- C1 counterexample: with one completed step whose rollback raises
`KeyboardInterrupt`, the `raise` statement re-raising the fatal error is
never reached: `run_installation` propagates the `KeyboardInterrupt`
instead of the very same `FatalInstallError`. -/
theorem c1_counterexample : ¬ C1Stated := by
  intro h
  have hinst := h [mkStep "A" false none (some PyExc.keyboardInterrupt)]
    (mkStep "B" false (some (PyExc.fatalInstallError "boom")) none) [] wCtx
    ⟨"/w", true, none, false, false, none, false, ["A"], []⟩
    [Event.checkCall "A", Event.runCall "A", Event.markCompleted "A"]
    (PyExc.fatalInstallError "boom") rfl rfl rfl rfl
  exact absurd hinst (by decide)

/-- C1 (amended): if a step's run raises `FatalInstallError`, the
orchestrator invokes `rollback_completed_steps(ctx, steps)` on the full
list and then re-raises the very same exception unchanged, unless the
rollback pass itself raises an uncaught (non-`Exception`) exception such as
`KeyboardInterrupt`, which propagates instead; in either case no step
ordered after the failing step has check or run called. -/
theorem c1_fatal_rollback_reraise
    (pre : List StepBehavior) (s : StepBehavior) (post : List StepBehavior)
    (ctx c1 : InstallContext) (t1 : List Event) (e : PyExc)
    (hpre : runLoop ctx.ui (pre ++ s :: post) pre ctx = ⟨c1, t1, none⟩)
    (hcheck : s.check c1 = false)
    (hrun : (s.run c1).2 = some e)
    (hfatal : isFatalInstallError e = true)
    (hpostn : ∀ st ∈ post, st.name ∉ pre.map (fun x => x.name) ∧ st.name ≠ s.name) :
    run_installation (pre ++ s :: post) ctx =
      ⟨(rollback_completed_steps (s.run c1).1 (pre ++ s :: post)).ctx,
       (if ctx.ui then [Event.uiTotalSteps (pre ++ s :: post).length] else []) ++
         (t1 ++ (((if ctx.ui then [Event.uiStep (stepTitle s.name)] else []) ++
            [Event.checkCall s.name] ++ [Event.runCall s.name]) ++
          (rollback_completed_steps (s.run c1).1 (pre ++ s :: post)).trace)),
       some (((rollback_completed_steps (s.run c1).1 (pre ++ s :: post)).exc).getD e)⟩ ∧
    ((rollback_completed_steps (s.run c1).1 (pre ++ s :: post)).exc = none →
      (run_installation (pre ++ s :: post) ctx).exc = some e) ∧
    (∀ st ∈ post, Event.checkCall st.name ∉ (run_installation (pre ++ s :: post) ctx).trace ∧
      Event.runCall st.name ∉ (run_installation (pre ++ s :: post) ctx).trace) := by
  have heq : run_installation (pre ++ s :: post) ctx =
      ⟨(rollback_completed_steps (s.run c1).1 (pre ++ s :: post)).ctx,
       (if ctx.ui then [Event.uiTotalSteps (pre ++ s :: post).length] else []) ++
         (t1 ++ (((if ctx.ui then [Event.uiStep (stepTitle s.name)] else []) ++
            [Event.checkCall s.name] ++ [Event.runCall s.name]) ++
          (rollback_completed_steps (s.run c1).1 (pre ++ s :: post)).trace)),
       some (((rollback_completed_steps (s.run c1).1 (pre ++ s :: post)).exc).getD e)⟩ := by
    rw [run_installation_decomp _ pre s post ctx c1 t1 rfl hpre,
      runLoop_cons_fatal ctx.ui _ s post c1 e hcheck hrun hfatal]
  refine ⟨heq, ?_, ?_⟩
  · intro hnone
    rw [heq]
    dsimp only
    rw [hnone]
    rfl
  · intro st hst
    obtain ⟨hst1, hst2⟩ := hpostn st hst
    constructor
    · intro hmem
      rw [heq] at hmem
      dsimp only at hmem
      rcases List.mem_append.mp hmem with h0 | h1
      · have := mem_ite_singleton h0; simp at this
      rcases List.mem_append.mp h1 with ht1 | h2
      · exact hst1 (runLoop_checkCall_names ctx.ui _ pre ctx st.name (by rw [hpre]; exact ht1))
      rcases List.mem_append.mp h2 with hseg | hrb
      · rcases List.mem_append.mp hseg with hac | hr
        · rcases List.mem_append.mp hac with hA | hc
          · have := mem_ite_singleton hA; simp at this
          · have : st.name = s.name := by simpa using hc
            exact hst2 this
        · simp at hr
      · have := rollback_trace_rb _ _ _ hrb
        simp [isRollbackEvent] at this
    · intro hmem
      rw [heq] at hmem
      dsimp only at hmem
      rcases List.mem_append.mp hmem with h0 | h1
      · have := mem_ite_singleton h0; simp at this
      rcases List.mem_append.mp h1 with ht1 | h2
      · exact hst1 (runLoop_runCall_names ctx.ui _ pre ctx st.name (by rw [hpre]; exact ht1))
      rcases List.mem_append.mp h2 with hseg | hrb
      · rcases List.mem_append.mp hseg with hac | hr
        · rcases List.mem_append.mp hac with hA | hc
          · have := mem_ite_singleton hA; simp at this
          · simp at hc
        · have : st.name = s.name := by simpa using hr
          exact hst2 this
      · have := rollback_trace_rb _ _ _ hrb
        simp [isRollbackEvent] at this

/-- C1 witness: a concrete pipeline where step A completes, step B raises a
fatal error, A is rolled back and the very same fatal error propagates. -/
theorem c1_witness :
    (((mkStep "B" false (some (PyExc.fatalInstallError "boom")) none).run
        ⟨"/w", true, none, false, false, none, false, ["A"], []⟩).2 =
      some (PyExc.fatalInstallError "boom")) ∧
    run_installation
        [mkStep "A" false none none,
         mkStep "B" false (some (PyExc.fatalInstallError "boom")) none] wCtx =
      ⟨⟨"/w", true, none, false, false, none, false, ["A"], []⟩,
       [Event.checkCall "A", Event.runCall "A", Event.markCompleted "A",
        Event.checkCall "B", Event.runCall "B", Event.rollbackCall "A"],
       some (PyExc.fatalInstallError "boom")⟩ :=
  ⟨rfl,
    (c1_fatal_rollback_reraise [mkStep "A" false none none]
      (mkStep "B" false (some (PyExc.fatalInstallError "boom")) none) [] wCtx
      ⟨"/w", true, none, false, false, none, false, ["A"], []⟩
      [Event.checkCall "A", Event.runCall "A", Event.markCompleted "A"]
      (PyExc.fatalInstallError "boom") rfl rfl rfl rfl (by simp)).1⟩

theorem rollbackCalls_ite_warning (b : Bool) (m : String) :
    rollbackCalls (if b then [Event.uiWarning m] else []) = [] := by
  cases b <;> simp [rollbackCalls]

theorem rollbackCalls_mem (t : List Event) (n : String) (h : n ∈ rollbackCalls t) :
    Event.rollbackCall n ∈ t := by
  simp only [rollbackCalls, List.mem_filterMap] at h
  obtain ⟨ev, hev, hf⟩ := h
  cases ev <;> simp at hf
  exact hf ▸ hev

/-- The rollback-call names of one whole `rollback_completed_steps` pass on
well-behaved rollbacks: exactly the completed names, in reverse step-list
order. -/
theorem rollback_completed_calls (ctx : InstallContext) (steps : List StepBehavior)
    (hE : ∀ s ∈ steps, ∀ c e, (s.rollback c).2 = some e → isExceptionInstance e = true) :
    (rollback_completed_steps ctx steps).exc = none ∧
    rollbackCalls (rollback_completed_steps ctx steps).trace =
      ((steps.reverse).filter
        (fun s => decide (s.name ∈ ctx.completed_steps))).map (fun s => s.name) := by
  have hErev : ∀ s ∈ steps.reverse, ∀ c e, (s.rollback c).2 = some e →
      isExceptionInstance e = true := by
    intro s hs
    exact hE s (List.mem_reverse.mp hs)
  obtain ⟨h1, h2⟩ := rollbackLoop_ok ctx.ui ctx.completed_steps steps.reverse ctx hErev
  simp only [rollback_completed_steps]
  refine ⟨h1, ?_⟩
  rw [rollbackCalls_append, rollbackCalls_ite_warning, h2]
  rfl

/-- C2 exactly as stated: the rollback-call sequence of a
`rollback_completed_steps` pass is always exactly the completed step names
in reverse step-list order (each completed step rolled back exactly once,
never-completed steps never rolled back). -/
def C2Stated : Prop :=
  ∀ (ctx : InstallContext) (steps : List StepBehavior),
    rollbackCalls (rollback_completed_steps ctx steps).trace =
      ((steps.reverse).filter
        (fun s => decide (s.name ∈ ctx.completed_steps))).map (fun s => s.name)

/-- C2 counterexample: with completed steps A, B, C where the rollback of C
raises `KeyboardInterrupt`, the pass aborts after C: the rollback calls are
only C, not C, B, A, so completed steps B and A are not rolled back even
once. -/
theorem c2_counterexample : ¬ C2Stated := by
  intro h
  have hinst := h ⟨"/w", true, none, false, false, none, false, ["A", "B", "C"], []⟩
    [mkStep "A" false none none, mkStep "B" false none none,
     mkStep "C" false none (some PyExc.keyboardInterrupt)]
  exact absurd hinst (by decide)

/-- C2 (amended): provided no completed step's rollback raises a
non-`Exception` (`BaseException`-only) exception, `rollback_completed_steps`
iterates the full step list in reverse order, skipping steps not in the
completed-set snapshot, and calls rollback exactly once on each completed
step: the rollback-call sequence is exactly the completed names in reverse
step-list order, each completed step counted once and never-completed names
zero times. -/
theorem c2_rollback_reverse_order
    (ctx : InstallContext) (steps : List StepBehavior)
    (hE : ∀ s ∈ steps, ∀ c e, (s.rollback c).2 = some e → isExceptionInstance e = true)
    (hnodup : (steps.map (fun s => s.name)).Nodup) :
    rollbackCalls (rollback_completed_steps ctx steps).trace =
      ((steps.reverse).filter
        (fun s => decide (s.name ∈ ctx.completed_steps))).map (fun s => s.name) ∧
    (∀ s ∈ steps, s.name ∈ ctx.completed_steps →
      (rollbackCalls (rollback_completed_steps ctx steps).trace).count s.name = 1) ∧
    (∀ n, n ∉ ctx.completed_steps →
      (rollbackCalls (rollback_completed_steps ctx steps).trace).count n = 0) := by
  obtain ⟨hexc, hcalls⟩ := rollback_completed_calls ctx steps hE
  have hsub : List.Sublist
      (((steps.reverse).filter
        (fun s => decide (s.name ∈ ctx.completed_steps))).map (fun s => s.name))
      ((steps.map (fun s => s.name)).reverse) := by
    rw [← List.map_reverse]
    exact List.Sublist.map _ (List.filter_sublist _)
  have hnodup2 : (((steps.reverse).filter
      (fun s => decide (s.name ∈ ctx.completed_steps))).map (fun s => s.name)).Nodup :=
    (List.nodup_reverse.mpr hnodup).sublist hsub
  refine ⟨hcalls, ?_, ?_⟩
  · intro s hs hsc
    rw [hcalls]
    have hle := List.nodup_iff_count_le_one.mp hnodup2 s.name
    have hmem : s.name ∈ ((steps.reverse).filter
        (fun s => decide (s.name ∈ ctx.completed_steps))).map (fun s => s.name) :=
      List.mem_map_of_mem _ (List.mem_filter.mpr ⟨List.mem_reverse.mpr hs, by simpa⟩)
    have hpos := List.count_pos_iff.mpr hmem
    omega
  · intro n hn
    rw [hcalls, List.count_eq_zero]
    intro hmem
    obtain ⟨s2, hs2, hs2n⟩ := List.mem_map.mp hmem
    have hfil := List.mem_filter.mp hs2
    have : s2.name ∈ ctx.completed_steps := by simpa using hfil.2
    exact hn (hs2n ▸ this)

/-- C2 witness: three completed steps with benign rollbacks are rolled back
in exactly reverse order C, B, A. -/
theorem c2_witness :
    rollbackCalls (rollback_completed_steps
        ⟨"/w", true, none, false, false, none, false, ["A", "B", "C"], []⟩
        [mkStep "A" false none none, mkStep "B" false none none,
         mkStep "C" false none none]).trace = ["C", "B", "A"] :=
  (c2_rollback_reverse_order
    ⟨"/w", true, none, false, false, none, false, ["A", "B", "C"], []⟩
    [mkStep "A" false none none, mkStep "B" false none none, mkStep "C" false none none]
    (by intro s hs c e h; simp [mkStep] at hs; rcases hs with h1 | h1 | h1 <;>
      subst h1 <;> simp [mkStep] at h)
    (by simp [mkStep])).1

/-- C3 exactly as stated: every exception raised by a step's rollback inside
`rollback_completed_steps` is caught and never propagates, so the pass never
raises and every completed step receives its rollback call. -/
def C3Stated : Prop :=
  ∀ (ctx : InstallContext) (steps : List StepBehavior),
    (rollback_completed_steps ctx steps).exc = none ∧
    (∀ s ∈ steps, s.name ∈ ctx.completed_steps →
      Event.rollbackCall s.name ∈ (rollback_completed_steps ctx steps).trace)

/-- C3 counterexample: a rollback raising `KeyboardInterrupt` (a
`BaseException` that `except Exception` does not catch) propagates out of
`rollback_completed_steps`, and the remaining completed step A never
receives its rollback call. -/
theorem c3_counterexample : ¬ C3Stated := by
  intro h
  have hinst := (h ⟨"/w", true, none, false, false, none, false, ["A", "B"], []⟩
    [mkStep "A" false none none,
     mkStep "B" false none (some PyExc.keyboardInterrupt)]).1
  exact absurd hinst (by decide)

/-- C3 (amended): every exception raised by a step's rollback that is an
instance of Python's `Exception` class (thus excluding `BaseException`-only
exceptions such as `KeyboardInterrupt`) is caught inside
`rollback_completed_steps` and reported via the UI when one is present;
provided the remaining completed steps' rollbacks also raise at most
`Exception` instances, nothing propagates out of the pass and every
remaining completed step (the steps earlier in execution order) still
receives its rollback call. -/
theorem c3_rollback_isolation
    (ctx : InstallContext) (pre : List StepBehavior) (s : StepBehavior)
    (post : List StepBehavior) (c1 : InstallContext) (t1 : List Event) (e : PyExc)
    (hpost : rollbackLoop ctx.ui ctx.completed_steps post.reverse ctx = ⟨c1, t1, none⟩)
    (hmem : s.name ∈ ctx.completed_steps)
    (hrb : (s.rollback c1).2 = some e)
    (hEe : isExceptionInstance e = true)
    (hEpre : ∀ s2 ∈ pre, ∀ c e2, (s2.rollback c).2 = some e2 →
      isExceptionInstance e2 = true) :
    (rollback_completed_steps ctx (pre ++ s :: post)).exc = none ∧
    (ctx.ui = true →
      Event.uiError ("Rollback failed for " ++ s.name ++ ": " ++ pyStr e) ∈
        (rollback_completed_steps ctx (pre ++ s :: post)).trace) ∧
    (∀ s2 ∈ pre, s2.name ∈ ctx.completed_steps →
      Event.rollbackCall s2.name ∈ (rollback_completed_steps ctx (pre ++ s :: post)).trace) := by
  have hEpreRev : ∀ s2 ∈ pre.reverse, ∀ c e2, (s2.rollback c).2 = some e2 →
      isExceptionInstance e2 = true := by
    intro s2 hs2
    exact hEpre s2 (List.mem_reverse.mp hs2)
  obtain ⟨hpreExc, hpreCalls⟩ :=
    rollbackLoop_ok ctx.ui ctx.completed_steps pre.reverse (s.rollback c1).1 hEpreRev
  have hrev : (pre ++ s :: post).reverse = post.reverse ++ (s :: pre.reverse) := by
    simp
  have hloop : rollbackLoop ctx.ui ctx.completed_steps ((pre ++ s :: post).reverse) ctx =
      ⟨(rollbackLoop ctx.ui ctx.completed_steps (s :: pre.reverse) c1).ctx,
       t1 ++ (rollbackLoop ctx.ui ctx.completed_steps (s :: pre.reverse) c1).trace,
       (rollbackLoop ctx.ui ctx.completed_steps (s :: pre.reverse) c1).exc⟩ := by
    rw [hrev, rollbackLoop_append ctx.ui ctx.completed_steps post.reverse (s :: pre.reverse)
      ctx (by rw [hpost]), hpost]
  have hcons := rollbackLoop_cons_exc ctx.ui ctx.completed_steps s pre.reverse c1 e hmem hrb hEe
  refine ⟨?_, ?_, ?_⟩
  · simp only [rollback_completed_steps]
    rw [hloop, hcons]
    dsimp only
    exact hpreExc
  · intro hui
    simp only [rollback_completed_steps]
    rw [hloop, hcons]
    dsimp only
    rw [hui]
    simp
  · intro s2 hs2 hs2c
    simp only [rollback_completed_steps]
    rw [hloop, hcons]
    dsimp only
    refine List.mem_append_right _ (List.mem_append_right _ (List.mem_append_right _ ?_))
    refine rollbackCalls_mem _ _ ?_
    rw [hpreCalls]
    exact List.mem_map_of_mem _
      (List.mem_filter.mpr ⟨List.mem_reverse.mpr hs2, by simpa⟩)

/-- C3 witness: a concrete pass where the rollback of completed step B
raises an ordinary exception; the pass raises nothing and the earlier
completed step A still gets its rollback call. -/
theorem c3_witness :
    (((mkStep "B" false none (some (PyExc.otherException "rb failed"))).rollback
        ⟨"/w", true, none, false, false, none, false, ["A", "B"], []⟩).2 =
      some (PyExc.otherException "rb failed")) ∧
    isExceptionInstance (PyExc.otherException "rb failed") = true ∧
    (rollback_completed_steps ⟨"/w", true, none, false, false, none, false, ["A", "B"], []⟩
      [mkStep "A" false none none,
       mkStep "B" false none (some (PyExc.otherException "rb failed"))]).exc = none ∧
    Event.rollbackCall "A" ∈ (rollback_completed_steps
      ⟨"/w", true, none, false, false, none, false, ["A", "B"], []⟩
      [mkStep "A" false none none,
       mkStep "B" false none (some (PyExc.otherException "rb failed"))]).trace :=
  ⟨rfl, rfl,
    (c3_rollback_isolation ⟨"/w", true, none, false, false, none, false, ["A", "B"], []⟩
      [mkStep "A" false none none]
      (mkStep "B" false none (some (PyExc.otherException "rb failed"))) []
      ⟨"/w", true, none, false, false, none, false, ["A", "B"], []⟩ []
      (PyExc.otherException "rb failed") rfl (by decide) rfl rfl
      (by intro s2 hs2 c e2 h; simp [mkStep] at hs2; subst hs2; simp [mkStep] at h)).1,
    (c3_rollback_isolation ⟨"/w", true, none, false, false, none, false, ["A", "B"], []⟩
      [mkStep "A" false none none]
      (mkStep "B" false none (some (PyExc.otherException "rb failed"))) []
      ⟨"/w", true, none, false, false, none, false, ["A", "B"], []⟩ []
      (PyExc.otherException "rb failed") rfl (by decide) rfl rfl
      (by intro s2 hs2 c e2 h; simp [mkStep] at hs2; subst hs2; simp [mkStep] at h)).2.2
      (mkStep "A" false none none) (by simp) (by decide)⟩

/-- C10: a `KeyboardInterrupt` raised while a step's run executes propagates
out of `run_installation` without `rollback_completed_steps` ever being
invoked (no rollback warning or rollback call in the trace, since only
`FatalInstallError` triggers rollback), and the `install` command catches it
and exits with code 130, still without any rollback call in its trace. -/
theorem c10_keyboard_interrupt_no_rollback
    (pre : List StepBehavior) (s : StepBehavior) (post : List StepBehavior)
    (build cwd : String) (non_interactive skip_env localFiles : Bool)
    (local_repo_dir : Option String) (skip_python : Bool)
    (c1 : InstallContext) (t1 : List Event)
    (hpre : runLoop
      (installContext cwd non_interactive skip_env localFiles local_repo_dir skip_python).ui
      (pre ++ s :: post) pre
      (installContext cwd non_interactive skip_env localFiles local_repo_dir skip_python) =
      ⟨c1, t1, none⟩)
    (hcheck : s.check c1 = false)
    (hrun : (s.run c1).2 = some PyExc.keyboardInterrupt) :
    (run_installation (pre ++ s :: post)
      (installContext cwd non_interactive skip_env localFiles local_repo_dir
        skip_python)).exc = some PyExc.keyboardInterrupt ∧
    (∀ n, Event.rollbackCall n ∉ (run_installation (pre ++ s :: post)
      (installContext cwd non_interactive skip_env localFiles local_repo_dir
        skip_python)).trace) ∧
    Event.uiWarning "Rolling back installation..." ∉ (run_installation (pre ++ s :: post)
      (installContext cwd non_interactive skip_env localFiles local_repo_dir
        skip_python)).trace ∧
    (install (pre ++ s :: post) build cwd non_interactive skip_env localFiles
      local_repo_dir skip_python).1 = InstallOutcome.exitCode 130 ∧
    (∀ n, Event.rollbackCall n ∉ (install (pre ++ s :: post) build cwd non_interactive
      skip_env localFiles local_repo_dir skip_python).2) := by
  set ctxI := installContext cwd non_interactive skip_env localFiles local_repo_dir
    skip_python with hctxI
  have heq : run_installation (pre ++ s :: post) ctxI =
      ⟨(s.run c1).1,
       (if ctxI.ui then [Event.uiTotalSteps (pre ++ s :: post).length] else []) ++
         (t1 ++ ((if ctxI.ui then [Event.uiStep (stepTitle s.name)] else []) ++
           [Event.checkCall s.name] ++ [Event.runCall s.name])),
       some PyExc.keyboardInterrupt⟩ := by
    rw [run_installation_decomp _ pre s post ctxI c1 t1 rfl hpre,
      runLoop_cons_raise ctxI.ui _ s post c1 PyExc.keyboardInterrupt hcheck hrun rfl]
  have ht1rb : ∀ ev ∈ t1, isRollbackEvent ev = false := by
    intro ev hev
    exact runLoop_none_no_rb ctxI.ui _ pre ctxI (by rw [hpre]) ev (by rw [hpre]; exact hev)
  have hnorb : ∀ n, Event.rollbackCall n ∉ (run_installation (pre ++ s :: post) ctxI).trace := by
    intro n hmem
    rw [heq] at hmem
    dsimp only at hmem
    rcases List.mem_append.mp hmem with h0 | h1
    · have := mem_ite_singleton h0; simp at this
    rcases List.mem_append.mp h1 with ht1 | h2
    · have := ht1rb _ ht1; simp [isRollbackEvent] at this
    rcases List.mem_append.mp h2 with hac | hr
    · rcases List.mem_append.mp hac with hA | hc
      · have := mem_ite_singleton hA; simp at this
      · simp at hc
    · simp at hr
  have hinstall : install (pre ++ s :: post) build cwd non_interactive skip_env localFiles
      local_repo_dir skip_python =
      (InstallOutcome.exitCode 130,
       [Event.uiBanner, Event.uiInfo ("Build: " ++ build)] ++
         (run_installation (pre ++ s :: post) ctxI).trace ++
         [Event.uiWarning "Installation cancelled"]) := by
    simp only [install, ← hctxI]
    rw [heq]
    dsimp only
    rw [if_neg (by simp [isFatalInstallError]), if_pos rfl]
  refine ⟨by rw [heq], hnorb, ?_, by rw [hinstall], ?_⟩
  · intro hmem
    rw [heq] at hmem
    dsimp only at hmem
    rcases List.mem_append.mp hmem with h0 | h1
    · have := mem_ite_singleton h0; simp at this
    rcases List.mem_append.mp h1 with ht1 | h2
    · have := ht1rb _ ht1; simp [isRollbackEvent] at this
    rcases List.mem_append.mp h2 with hac | hr
    · rcases List.mem_append.mp hac with hA | hc
      · have := mem_ite_singleton hA; simp at this
      · simp at hc
    · simp at hr
  · intro n hmem
    rw [hinstall] at hmem
    dsimp only at hmem
    rcases List.mem_append.mp hmem with h01 | hlast
    · rcases List.mem_append.mp h01 with h0 | hmid
      · simp at h0
      · exact hnorb n hmid
    · simp at hlast

/-- C10 witness: a concrete step raising `KeyboardInterrupt` makes
`run_installation` propagate it and the install command exit with 130. -/
theorem c10_witness :
    (((mkStep "K" false (some PyExc.keyboardInterrupt) none).run
        (installContext "/w" false false false none false)).2 =
      some PyExc.keyboardInterrupt) ∧
    (run_installation [mkStep "K" false (some PyExc.keyboardInterrupt) none]
      (installContext "/w" false false false none false)).exc =
      some PyExc.keyboardInterrupt ∧
    (install [mkStep "K" false (some PyExc.keyboardInterrupt) none] "b" "/w" false false
      false none false).1 = InstallOutcome.exitCode 130 :=
  ⟨rfl,
   (c10_keyboard_interrupt_no_rollback [] (mkStep "K" false (some PyExc.keyboardInterrupt) none)
     [] "b" "/w" false false false none false
     (installContext "/w" false false false none false) [] rfl rfl rfl).1,
   (c10_keyboard_interrupt_no_rollback [] (mkStep "K" false (some PyExc.keyboardInterrupt) none)
     [] "b" "/w" false false false none false
     (installContext "/w" false false false none false) [] rfl rfl rfl).2.2.2.1⟩
